import Mathlib

/-!
Shallow embedding of the `box` image-build engine (package `builder`:
`commit`, `consultCache`, `tarPath`, `sumFile`, and the older package `main`
step dispatchers `run`, `user`, `workdir`), together with proofs of the
specification claims about them.

The container runtime is modelled as an explicit state (live containers and
committed image records); the outcomes of the runtime API calls that the Go
code performs through its docker client are supplied by an oracle, so each
theorem quantifies over every pattern of success, failure and interruption.
-/

namespace Box

/-- The subset of `engine-api` `container.Config` that the builder reads and
writes: image reference, user, working directory, command, entrypoint,
environment, and the three stream flags set by the `from` step. -/
structure ContainerConfig where
  Image : String
  User : String
  WorkingDir : String
  Cmd : List String
  Entrypoint : List String
  Env : List String
  Tty : Bool
  AttachStdout : Bool
  AttachStderr : Bool
deriving Repr, DecidableEq

/-- The `Builder` record of package `builder` (`part_000`): the mutable build
state `config` plus the canonical user/workdir/cmd/entrypoint fields that
`resetConfig` re-applies before each commit. -/
structure Builder where
  config : ContainerConfig
  user : String
  workdir : String
  cmd : List String
  entrypoint : List String
deriving Repr, DecidableEq

/-- `Builder.resetConfig`: re-apply the canonical working-directory, user,
command and entrypoint fields onto the container configuration. -/
def Builder.resetConfig (b : Builder) : Builder :=
  { b with config := { b.config with
      WorkingDir := b.workdir
      User := b.user
      Cmd := b.cmd
      Entrypoint := b.entrypoint } }

/-- An image record held by the runtime: identity, parent image, the comment
field (repurposed to store the cache key) and the committed config snapshot. -/
structure ImageRec where
  id : String
  parentID : String
  comment : String
  config : ContainerConfig
deriving Repr, DecidableEq

/-- The runtime state visible to the builder: the set of live containers
(as a list of ids) and the committed images. -/
structure Runtime where
  containers : List String
  images : List ImageRec
deriving Repr, DecidableEq

/-- `ContainerRemove` with `Force: true`: removes the container if present;
against an already-removed container it is a no-op (the Go code ignores its
result on the forced paths). -/
def containerRemoveForce (id : String) (rt : Runtime) : Runtime :=
  { rt with containers := rt.containers.filter (fun c => c ≠ id) }

/-- `ContainerRemove` without force, as used on the clean path; the oracle
bit `ok` decides whether the API call succeeds. On failure the container is
left in place and the error is surfaced. -/
def containerRemoveClean (ok : Bool) (id : String) (rt : Runtime) :
    Except String Unit × Runtime :=
  if ok then (Except.ok (), containerRemoveForce id rt)
  else (Except.error "API error", rt)

/-- Oracle for one `commit` call: the `NO_CACHE` environment toggle, the
outcome of `ContainerCreate`, the point (if any) at which the asynchronous
interrupt watcher fires its forced removal (`0` = right after creation,
`1` = after the hook / before `ContainerCommit`, `2` = after
`ContainerCommit` / before the clean removal), the hook's outcome (refined
cache key or error), the outcome of `ContainerCommit` (new image id or
error), and whether the clean removal succeeds. -/
structure CommitEnv where
  noCache : Bool
  createRes : Except String String
  interruptAt : Option Nat
  hookRes : Except String String
  commitRes : Except String String
  cleanOk : Bool

/-- The interrupt watcher's effect: if the oracle fires the signal at point
`k`, the just-created container is forcibly removed there. -/
def fire (e : CommitEnv) (k : Nat) (id : String) (rt : Runtime) : Runtime :=
  if e.interruptAt = some k then containerRemoveForce id rt else rt

/-- The tail of `Builder.commit` after the hook has produced the effective
cache key `key`: `resetConfig`, `ContainerCommit` (storing `key` as the
image comment and the current image as parent), then the clean removal;
on success the build state's image id becomes the committed image id. -/
def commitAfterHook (e : CommitEnv) (key : String) (b : Builder) (id : String)
    (rt : Runtime) : Except String Unit × Builder × Runtime :=
  let b := b.resetConfig
  let rt := fire e 1 id rt
  match e.commitRes with
  | Except.error err => (Except.error ("Error during commit: " ++ err), b, rt)
  | Except.ok oid =>
      let rt := { rt with images := rt.images ++ [⟨oid, b.config.Image, key, b.config⟩] }
      let rt := fire e 2 id rt
      match containerRemoveClean e.cleanOk id rt with
      | (Except.error err, rt) =>
          (Except.error ("Could not remove intermediate container " ++ id ++ ": " ++ err),
            b, rt)
      | (Except.ok _, rt) =>
          (Except.ok (), { b with config := { b.config with Image := oid } }, rt)

/-- The body of `Builder.commit` between container creation and the deferred
cleanup: run the hook if one was passed; a non-empty refined key overrides
the effective cache key unless `NO_CACHE` is set; hook failure aborts. -/
def commitInner (e : CommitEnv) (cacheKey : String) (hasHook : Bool) (b : Builder)
    (id : String) (rt : Runtime) : Except String Unit × Builder × Runtime :=
  if hasHook then
    match e.hookRes with
    | Except.error err => (Except.error err, b, rt)
    | Except.ok tmp =>
        let key := if tmp ≠ "" ∧ e.noCache = false then tmp else cacheKey
        commitAfterHook e key b id rt
  else
    commitAfterHook e cacheKey b id rt

/-- `Builder.commit cacheKey hook`: force the key empty under `NO_CACHE`,
create the ephemeral container, register the interrupt watcher, run the
body, and — on every exit path after creation — run the deferred forced
removal of the container. Returns the Go function's error result together
with the final build state and runtime state. -/
def commit (e : CommitEnv) (cacheKey0 : String) (hasHook : Bool) (b : Builder)
    (rt : Runtime) : Except String Unit × Builder × Runtime :=
  let cacheKey := if e.noCache then "" else cacheKey0
  match e.createRes with
  | Except.error err => (Except.error err, b, rt)
  | Except.ok id =>
      let rt1 : Runtime := { rt with containers := rt.containers ++ [id] }
      let rt1 := fire e 0 id rt1
      match commitInner e cacheKey hasHook b id rt1 with
      | (res, b2, rt2) => (res, b2, containerRemoveForce id rt2)

/-- The runtime API calls that `consultCache` can make. -/
inductive Call where
  | listImages
  | inspectImage (id : String)
deriving Repr, DecidableEq

/-- Oracle for one `consultCache` call: the `NO_CACHE` toggle, the outcome of
`ImageList` (on success the runtime's image list is returned), and the
outcome of `ImageInspectWithRaw` per image id (on success the image's
record is returned). -/
structure CacheEnv where
  noCache : Bool
  listRes : Except String Unit
  inspectRes : String → Except String Unit

/-- The build-state mutation performed on a cache hit: adopt the candidate
image's configuration wholesale, copy its user / working directory /
command / entrypoint into the canonical fields, and point the current image
id at the candidate. -/
def adoptCache (img : ImageRec) (b : Builder) : Builder :=
  { config := { img.config with Image := img.id }
    user := img.config.User
    workdir := img.config.WorkingDir
    cmd := img.config.Cmd
    entrypoint := img.config.Entrypoint }

/-- The `for _, img := range images` loop of `consultCache`: skip images whose
`parentID` differs from the current image id `cur`; inspect each remaining
candidate (the oracle may fail the inspect); the first candidate whose
comment equals `key` is adopted. Returns (hit, error, build state, calls). -/
def consultLoop (env : CacheEnv) (key cur : String) (b : Builder) :
    List ImageRec → Bool × Option String × Builder × List Call
  | [] => (false, none, b, [])
  | img :: rest =>
      if img.parentID = cur then
        match env.inspectRes img.id with
        | Except.error e => (false, some e, b, [Call.inspectImage img.id])
        | Except.ok _ =>
            if img.comment = key then
              (true, none, adoptCache img b, [Call.inspectImage img.id])
            else
              match consultLoop env key cur b rest with
              | (h, er, b', cs) => (h, er, b', Call.inspectImage img.id :: cs)
      else consultLoop env key cur b rest

/-- `Builder.consultCache cacheKey`: nothing happens when `NO_CACHE` is set or
no current image id is set; otherwise list the runtime's images (propagating
a listing failure) and scan them with `consultLoop`. -/
def consultCache (env : CacheEnv) (key : String) (b : Builder) (rt : Runtime) :
    Bool × Option String × Builder × List Call :=
  if env.noCache = false then
    if b.config.Image ≠ "" then
      match env.listRes with
      | Except.error e => (false, some e, b, [Call.listImages])
      | Except.ok _ =>
          match consultLoop env key b.config.Image b rt.images with
          | (h, er, b', cs) => (h, er, b', Call.listImages :: cs)
    else (false, none, b, [])
  else (false, none, b, [])

/-- Specification-side description of the image the loop should pick: the
first image in runtime listing order whose `parentID` is the current image
id and whose stored comment equals the key. -/
def firstMatch (cur key : String) : List ImageRec → Option ImageRec
  | [] => none
  | img :: rest =>
      if img.parentID = cur ∧ img.comment = key then some img
      else firstMatch cur key rest

/-- Specification-side description of the candidates the loop inspects: the
children of `cur` in listing order, cut off just after the first one whose
comment equals the key. -/
def scannedIds (cur key : String) : List ImageRec → List String
  | [] => []
  | img :: rest =>
      if img.parentID = cur then
        if img.comment = key then [img.id]
        else img.id :: scannedIds cur key rest
      else scannedIds cur key rest

/-- A sample container configuration used by concrete witnesses. -/
def cfgSample : ContainerConfig :=
  ⟨"base:latest", "root", "/", ["sh"], [], [], true, true, true⟩

/-- A sample cached-image configuration used by concrete witnesses. -/
def cfgCached : ContainerConfig :=
  ⟨"base:latest", "u2", "/w2", ["c2"], ["e2"], [], true, true, true⟩

/-- A sample child image that does not match the looked-up key. -/
def imgA : ImageRec := ⟨"imgA", "base:latest", "other", cfgCached⟩

/-- A sample child image whose comment matches the looked-up key `"k"`. -/
def imgB : ImageRec := ⟨"imgB", "base:latest", "k", cfgCached⟩

/-- A sample runtime holding the two child images, used by cache witnesses. -/
def rtCache : Runtime := ⟨[], [imgA, imgB]⟩

/-- A sample build state used by concrete witnesses. -/
def bSample : Builder := ⟨cfgSample, "u", "/w", ["c"], ["e"]⟩

/-- A sample runtime state used by concrete witnesses. -/
def rtSample : Runtime := ⟨["old"], []⟩

theorem notMem_removeForce (id : String) (rt : Runtime) :
    id ∉ (containerRemoveForce id rt).containers := by
  simp [containerRemoveForce]

theorem removeForce_absent (id : String) (rt : Runtime) (h : id ∉ rt.containers) :
    containerRemoveForce id rt = rt := by
  unfold containerRemoveForce
  have hf : rt.containers.filter (fun c => c ≠ id) = rt.containers :=
    List.filter_eq_self.mpr (fun a ha => by
      simp only [ne_eq, decide_not, Bool.not_eq_true', decide_eq_false_iff_not]
      exact fun e => h (e ▸ ha))
  rw [hf]

theorem fire_images (e : CommitEnv) (k : Nat) (id : String) (rt : Runtime) :
    (fire e k id rt).images = rt.images := by
  unfold fire containerRemoveForce
  split <;> rfl

theorem removeForce_images (id : String) (rt : Runtime) :
    (containerRemoveForce id rt).images = rt.images := rfl

theorem consultLoop_spec (env : CacheEnv) (key cur : String) (b : Builder)
    (imgs : List ImageRec)
    (hins : ∀ img ∈ imgs, img.parentID = cur → env.inspectRes img.id = Except.ok ()) :
    consultLoop env key cur b imgs =
      match firstMatch cur key imgs with
      | some img =>
          (true, none, adoptCache img b, (scannedIds cur key imgs).map Call.inspectImage)
      | none =>
          (false, none, b, (scannedIds cur key imgs).map Call.inspectImage) := by
  induction imgs with
  | nil => rfl
  | cons img rest ih =>
      have htail : ∀ i ∈ rest, i.parentID = cur → env.inspectRes i.id = Except.ok () :=
        fun i hi => hins i (List.mem_cons_of_mem _ hi)
      by_cases hp : img.parentID = cur
      · have hok := hins img (List.mem_cons_self _ _) hp
        by_cases hcm : img.comment = key
        · simp [consultLoop, firstMatch, scannedIds, hp, hcm, hok]
        · rcases hfm : firstMatch cur key rest with _ | mimg <;>
            simp [consultLoop, firstMatch, scannedIds, hp, hcm, hok, ih htail, hfm]
      · simp [consultLoop, firstMatch, scannedIds, hp, ih htail]

theorem scannedIds_sub (cur key : String) (imgs : List ImageRec) :
    ∀ i ∈ scannedIds cur key imgs, ∃ img ∈ imgs, img.id = i ∧ img.parentID = cur := by
  induction imgs with
  | nil => simp [scannedIds]
  | cons img rest ih =>
      intro i hi
      by_cases hp : img.parentID = cur
      · by_cases hcm : img.comment = key
        · simp [scannedIds, hp, hcm] at hi
          exact ⟨img, List.mem_cons_self _ _, hi.symm, hp⟩
        · simp [scannedIds, hp, hcm] at hi
          rcases hi with hi | hi
          · exact ⟨img, List.mem_cons_self _ _, hi.symm, hp⟩
          · obtain ⟨j, hj, hji, hjp⟩ := ih i hi
            exact ⟨j, List.mem_cons_of_mem _ hj, hji, hjp⟩
      · simp [scannedIds, hp] at hi
        obtain ⟨j, hj, hji, hjp⟩ := ih i hi
        exact ⟨j, List.mem_cons_of_mem _ hj, hji, hjp⟩

theorem consultLoop_error_no_hit (env : CacheEnv) (key cur : String) (b : Builder)
    (imgs : List ImageRec) :
    ∀ e, (consultLoop env key cur b imgs).2.1 = some e →
      (consultLoop env key cur b imgs).1 = false := by
  induction imgs with
  | nil => intro e h; simp [consultLoop] at h
  | cons img rest ih =>
      intro e h
      by_cases hp : img.parentID = cur
      · rcases hir : env.inspectRes img.id with er | u
        · simp [consultLoop, hp, hir]
        · by_cases hcm : img.comment = key
          · simp [consultLoop, hp, hir, hcm] at h
          · have hred : consultLoop env key cur b (img :: rest) =
                ((consultLoop env key cur b rest).1, (consultLoop env key cur b rest).2.1,
                  (consultLoop env key cur b rest).2.2.1,
                  Call.inspectImage img.id :: (consultLoop env key cur b rest).2.2.2) := by
              simp [consultLoop, hp, hir, hcm]
            rw [hred] at h ⊢
            exact ih e h
      · have hred : consultLoop env key cur b (img :: rest) =
            consultLoop env key cur b rest := by
          simp [consultLoop, hp]
        rw [hred] at h ⊢
        exact ih e h

theorem consultLoop_inspect_failure (env : CacheEnv) (key cur : String) (b : Builder)
    (pre : List ImageRec) (img : ImageRec) (post : List ImageRec) (e : String)
    (hpre : ∀ c ∈ pre, c.parentID = cur →
      env.inspectRes c.id = Except.ok () ∧ c.comment ≠ key)
    (hp : img.parentID = cur) (hi : env.inspectRes img.id = Except.error e) :
    consultLoop env key cur b (pre ++ img :: post) =
      (false, some e, b,
        ((pre.filter (fun c => c.parentID = cur)).map (fun c => Call.inspectImage c.id)) ++
          [Call.inspectImage img.id]) := by
  induction pre with
  | nil => simp [consultLoop, hp, hi]
  | cons c rest ih =>
      have hrest := ih (fun d hd hdp => hpre d (List.mem_cons_of_mem _ hd) hdp)
      by_cases hcp : c.parentID = cur
      · obtain ⟨hok, hcm⟩ := hpre c (List.mem_cons_self _ _) hcp
        simp [consultLoop, hcp, hok, hcm, hrest, List.filter_cons]
      · simp [consultLoop, hcp, hrest, List.filter_cons]

/-- C1: for every call to `commit` — success, container-creation failure,
hook failure, commit failure, clean-removal failure, and with the interrupt
watcher firing at any point or not at all — the ephemeral container created
at the start of the call is not present on the runtime when the call
completes, and the forced-removal path is a no-op (hence safe) against an
already-removed container. -/
theorem commit_cleanup_total (e : CommitEnv) (k : String) (hasHook : Bool)
    (b : Builder) (rt : Runtime) (id : String) (h : e.createRes = Except.ok id) :
    id ∉ (commit e k hasHook b rt).2.2.containers ∧
    (∀ rt' : Runtime, id ∉ rt'.containers → containerRemoveForce id rt' = rt') := by
  constructor
  · unfold commit
    rw [h]
    rcases hmi : commitInner e (if e.noCache then "" else k) hasHook b id
        (fire e 0 id { rt with containers := rt.containers ++ [id] }) with ⟨res, b2, rt2⟩
    simp only [hmi]
    exact notMem_removeForce id rt2
  · exact fun rt' h' => removeForce_absent id rt' h'

theorem commit_cleanup_total_witness :
    (Except.ok "c1" : Except String String) = Except.ok "c1" ∧
    ("c1" ∉ (commit ⟨false, Except.ok "c1", none, Except.ok "", Except.ok "img", true⟩
        "key" true bSample rtSample).2.2.containers ∧
      (∀ rt' : Runtime, "c1" ∉ rt'.containers → containerRemoveForce "c1" rt' = rt')) :=
  ⟨rfl, commit_cleanup_total ⟨false, Except.ok "c1", none, Except.ok "", Except.ok "img", true⟩
    "key" true bSample rtSample "c1" rfl⟩

/-- C5: if the hook passed to `commit` returns an error, `commit` returns
that error, no image is committed to the runtime, and the ephemeral
container is still cleaned up by the deferred forced removal. -/
theorem commit_hook_failure (e : CommitEnv) (k : String) (b : Builder) (rt : Runtime)
    (id msg : String) (hc : e.createRes = Except.ok id)
    (hh : e.hookRes = Except.error msg) :
    (commit e k true b rt).1 = Except.error msg ∧
    (commit e k true b rt).2.2.images = rt.images ∧
    id ∉ (commit e k true b rt).2.2.containers := by
  unfold commit commitInner
  rw [hc, hh]
  refine ⟨rfl, ?_, ?_⟩
  · show (containerRemoveForce id (fire e 0 id _)).images = rt.images
    rw [containerRemoveForce, fire_images]
  · exact notMem_removeForce id _

theorem commit_hook_failure_witness :
    ((Except.ok "c1" : Except String String) = Except.ok "c1" ∧
      (Except.error "boom" : Except String String) = Except.error "boom") ∧
    ((commit ⟨false, Except.ok "c1", none, Except.error "boom", Except.ok "img", true⟩
        "key" true bSample rtSample).1 = Except.error "boom" ∧
      (commit ⟨false, Except.ok "c1", none, Except.error "boom", Except.ok "img", true⟩
        "key" true bSample rtSample).2.2.images = rtSample.images ∧
      "c1" ∉ (commit ⟨false, Except.ok "c1", none, Except.error "boom", Except.ok "img", true⟩
        "key" true bSample rtSample).2.2.containers) :=
  ⟨⟨rfl, rfl⟩, commit_hook_failure
    ⟨false, Except.ok "c1", none, Except.error "boom", Except.ok "img", true⟩
    "key" bSample rtSample "c1" "boom" rfl rfl⟩

/-- C3: when the `NO_CACHE` flag is set, `commit` forces the effective cache
key to the empty string; a refined cache key returned by the hook (any
`tmp`) does not override it, and the image committed by the call carries an
empty comment. -/
theorem commit_noCache_empty_comment (e : CommitEnv) (k : String) (hasHook : Bool)
    (b : Builder) (rt : Runtime) (id tmp oid : String)
    (hnc : e.noCache = true) (hc : e.createRes = Except.ok id)
    (hh : e.hookRes = Except.ok tmp) (hco : e.commitRes = Except.ok oid) :
    (⟨oid, b.config.Image, "", b.resetConfig.config⟩ : ImageRec) ∈
      (commit e k hasHook b rt).2.2.images := by
  obtain ⟨nc, cr, ia, hr, comr, cok⟩ := e
  subst hnc
  subst hc
  subst hh
  subst hco
  rcases hasHook <;> rcases cok <;>
    simp [commit, commitInner, commitAfterHook, containerRemoveClean,
      removeForce_images, fire_images, Builder.resetConfig]

theorem commit_noCache_empty_comment_witness :
    (true = true ∧ (Except.ok "c1" : Except String String) = Except.ok "c1" ∧
      (Except.ok "refined" : Except String String) = Except.ok "refined" ∧
      (Except.ok "img9" : Except String String) = Except.ok "img9") ∧
    (⟨"img9", bSample.config.Image, "", bSample.resetConfig.config⟩ : ImageRec) ∈
      (commit ⟨true, Except.ok "c1", none, Except.ok "refined", Except.ok "img9", true⟩
        "key" true bSample rtSample).2.2.images :=
  ⟨⟨rfl, rfl, rfl, rfl⟩, commit_noCache_empty_comment
    ⟨true, Except.ok "c1", none, Except.ok "refined", Except.ok "img9", true⟩
    "key" true bSample rtSample "c1" "refined" "img9" rfl rfl rfl rfl⟩

/-- C10: `commit` is atomic with respect to the build state's image id: on
every error return the `config.Image` field equals its value at entry, and
it is updated — to the newly committed image id — exactly when `commit`
returns success. -/
theorem commit_image_id_atomic (e : CommitEnv) (k : String) (hasHook : Bool)
    (b : Builder) (rt : Runtime) :
    ((∃ msg, (commit e k hasHook b rt).1 = Except.error msg) →
      (commit e k hasHook b rt).2.1.config.Image = b.config.Image) ∧
    (∀ oid, e.commitRes = Except.ok oid → (commit e k hasHook b rt).1 = Except.ok () →
      (commit e k hasHook b rt).2.1.config.Image = oid) := by
  obtain ⟨nc, cr, ia, hr, comr, cok⟩ := e
  rcases cr with err | id <;> rcases hr with herr | tmp <;>
    rcases comr with cerr | oid <;> rcases cok <;> rcases hasHook <;>
    simp [commit, commitInner, commitAfterHook, containerRemoveClean,
      Builder.resetConfig, fire]

theorem commit_image_id_atomic_witness :
    ((∃ msg, (commit ⟨false, Except.ok "c1", none, Except.ok "", Except.error "cfail", true⟩
        "key" true bSample rtSample).1 = Except.error msg) →
      (commit ⟨false, Except.ok "c1", none, Except.ok "", Except.error "cfail", true⟩
        "key" true bSample rtSample).2.1.config.Image = bSample.config.Image) ∧
    (∀ oid, (Except.ok "img9" : Except String String) = Except.ok oid →
      (commit ⟨false, Except.ok "c1", none, Except.ok "", Except.ok "img9", true⟩
        "key" true bSample rtSample).1 = Except.ok () →
      (commit ⟨false, Except.ok "c1", none, Except.ok "", Except.ok "img9", true⟩
        "key" true bSample rtSample).2.1.config.Image = oid) :=
  ⟨(commit_image_id_atomic ⟨false, Except.ok "c1", none, Except.ok "", Except.error "cfail", true⟩
      "key" true bSample rtSample).1,
    (commit_image_id_atomic ⟨false, Except.ok "c1", none, Except.ok "", Except.ok "img9", true⟩
      "key" true bSample rtSample).2⟩

/-- C2: with caching active, a current image id set and no inspect failures,
`consultCache` inspects exactly the images whose `parentID` equals the
current image id (in listing order, cut off at the first key match); the
first such candidate whose comment equals the key wins; on that hit its
full configuration becomes the new build state, the current image id is set
to the candidate's id and hit=true is returned; with no match hit=false and
no error. -/
theorem consultCache_spec (env : CacheEnv) (key : String) (b : Builder) (rt : Runtime)
    (hnc : env.noCache = false) (himg : b.config.Image ≠ "")
    (hlist : env.listRes = Except.ok ())
    (hins : ∀ img ∈ rt.images, img.parentID = b.config.Image →
      env.inspectRes img.id = Except.ok ()) :
    (consultCache env key b rt).2.2.2 =
      Call.listImages :: (scannedIds b.config.Image key rt.images).map Call.inspectImage ∧
    (∀ i, Call.inspectImage i ∈ (consultCache env key b rt).2.2.2 →
      ∃ img ∈ rt.images, img.id = i ∧ img.parentID = b.config.Image) ∧
    (∀ img, firstMatch b.config.Image key rt.images = some img →
      (consultCache env key b rt).1 = true ∧ (consultCache env key b rt).2.1 = none ∧
      (consultCache env key b rt).2.2.1 = adoptCache img b ∧
      (consultCache env key b rt).2.2.1.config.Image = img.id) ∧
    (firstMatch b.config.Image key rt.images = none →
      (consultCache env key b rt).1 = false ∧ (consultCache env key b rt).2.1 = none ∧
      (consultCache env key b rt).2.2.1 = b) := by
  have hloop := consultLoop_spec env key b.config.Image b rt.images hins
  have hmem : ∀ i, Call.inspectImage i ∈ (consultCache env key b rt).2.2.2 →
      ∃ img ∈ rt.images, img.id = i ∧ img.parentID = b.config.Image := by
    intro i hi
    rcases hfm : firstMatch b.config.Image key rt.images with _ | img <;>
      rw [hfm] at hloop <;>
      simp [consultCache, hnc, himg, hlist, hloop] at hi <;>
      exact scannedIds_sub b.config.Image key rt.images i hi
  rcases hfm : firstMatch b.config.Image key rt.images with _ | img <;>
    rw [hfm] at hloop
  · refine ⟨?_, hmem, ?_, ?_⟩
    · simp [consultCache, hnc, himg, hlist, hloop]
    · intro img h; cases h
    · intro _; simp [consultCache, hnc, himg, hlist, hloop]
  · refine ⟨?_, hmem, ?_, ?_⟩
    · simp [consultCache, hnc, himg, hlist, hloop]
    · intro img' h
      rw [Option.some_inj] at h
      subst h
      refine ⟨?_, ?_, ?_, ?_⟩ <;> simp [consultCache, hnc, himg, hlist, hloop, adoptCache]
    · intro h; cases h

theorem consultCache_spec_witness :
    ((⟨false, Except.ok (), fun _ => Except.ok ()⟩ : CacheEnv).noCache = false ∧
      bSample.config.Image ≠ "" ∧
      firstMatch bSample.config.Image "k" rtCache.images = some imgB) ∧
    ((consultCache ⟨false, Except.ok (), fun _ => Except.ok ()⟩ "k" bSample rtCache).1 = true ∧
      (consultCache ⟨false, Except.ok (), fun _ => Except.ok ()⟩ "k" bSample rtCache).2.2.1 =
        adoptCache imgB bSample ∧
      (consultCache ⟨false, Except.ok (), fun _ => Except.ok ()⟩
        "k" bSample rtCache).2.2.1.config.Image = "imgB") :=
  have h := consultCache_spec ⟨false, Except.ok (), fun _ => Except.ok ()⟩ "k" bSample rtCache
    rfl (by decide) rfl (fun _ _ _ => rfl)
  have hm := h.2.2.1 imgB (by decide)
  ⟨⟨rfl, by decide, by decide⟩, hm.1, hm.2.2.1, hm.2.2.2⟩

/-- C4: `consultCache` returns hit=false, no error and makes no runtime calls
whenever caching is bypassed or no current image id is set; a failing
`ImageList` call, or a failing `ImageInspectWithRaw` call on a candidate at
any position of the listing reached by the scan (every earlier child having
inspected cleanly without matching), makes it return hit=false together
with that call's error; and an error result never comes with a hit. -/
theorem consultCache_guards_errors (env : CacheEnv) (key : String) (b : Builder)
    (rt : Runtime) :
    ((env.noCache = true ∨ b.config.Image = "") →
      consultCache env key b rt = (false, none, b, [])) ∧
    (∀ e, env.noCache = false → b.config.Image ≠ "" → env.listRes = Except.error e →
      consultCache env key b rt = (false, some e, b, [Call.listImages])) ∧
    (∀ e, (consultCache env key b rt).2.1 = some e →
      (consultCache env key b rt).1 = false) ∧
    (∀ pre img post e, rt.images = pre ++ img :: post →
      (∀ c ∈ pre, c.parentID = b.config.Image →
        env.inspectRes c.id = Except.ok () ∧ c.comment ≠ key) →
      img.parentID = b.config.Image → env.inspectRes img.id = Except.error e →
      env.noCache = false → b.config.Image ≠ "" → env.listRes = Except.ok () →
      consultCache env key b rt =
        (false, some e, b,
          Call.listImages ::
            (((pre.filter (fun c => c.parentID = b.config.Image)).map
              (fun c => Call.inspectImage c.id)) ++ [Call.inspectImage img.id]))) := by
  refine ⟨?_, ?_, ?_, ?_⟩
  · rintro (h | h)
    · simp [consultCache, h]
    · simp [consultCache, h]
  · intro e hnc himg hl
    simp [consultCache, hnc, himg, hl]
  · intro e h
    rcases hnc : env.noCache with _ | _
    · by_cases himg : b.config.Image = ""
      · simp [consultCache, hnc, himg] at h
      · rcases hl : env.listRes with e' | u
        · simp [consultCache, hnc, himg, hl]
        · have hred : consultCache env key b rt =
              ((consultLoop env key b.config.Image b rt.images).1,
                (consultLoop env key b.config.Image b rt.images).2.1,
                (consultLoop env key b.config.Image b rt.images).2.2.1,
                Call.listImages :: (consultLoop env key b.config.Image b rt.images).2.2.2) := by
            simp [consultCache, hnc, himg, hl]
          rw [hred] at h ⊢
          exact consultLoop_error_no_hit env key b.config.Image b rt.images e h
    · simp [consultCache, hnc] at h
  · intro pre img post e hrt hpre hp hi hnc himg hl
    have hloop := consultLoop_inspect_failure env key b.config.Image b pre img post e
      hpre hp hi
    simp [consultCache, hnc, himg, hl, hrt, hloop]

/-- A sample child image whose inspect call the witness oracle fails. -/
def imgFail : ImageRec := ⟨"imgFail", "base:latest", "w", cfgCached⟩

/-- A sample runtime where the inspect-failing child sits at the second
position of the listing, behind a cleanly-inspecting non-matching child. -/
def rtInsFail : Runtime := ⟨[], [imgA, imgFail]⟩

/-- A sample oracle that fails `ImageInspectWithRaw` exactly on `imgFail`. -/
def envInsFail : CacheEnv :=
  ⟨false, Except.ok (),
    fun i => if i = "imgFail" then Except.error "inspect down" else Except.ok ()⟩

theorem consultCache_guards_errors_witness :
    (consultCache ⟨true, Except.ok (), fun _ => Except.ok ()⟩ "k" bSample rtCache =
      (false, none, bSample, []) ∧
    consultCache ⟨false, Except.error "net down", fun _ => Except.ok ()⟩ "k" bSample rtCache =
      (false, some "net down", bSample, [Call.listImages])) ∧
    consultCache envInsFail "k" bSample rtInsFail =
      (false, some "inspect down", bSample,
        [Call.listImages, Call.inspectImage "imgA", Call.inspectImage "imgFail"]) :=
  ⟨⟨(consultCache_guards_errors ⟨true, Except.ok (), fun _ => Except.ok ()⟩
        "k" bSample rtCache).1 (Or.inl rfl),
    (consultCache_guards_errors ⟨false, Except.error "net down", fun _ => Except.ok ()⟩
        "k" bSample rtCache).2.1 "net down" rfl (by decide) rfl⟩,
    by
      have h := (consultCache_guards_errors envInsFail "k" bSample rtInsFail).2.2.2
        [imgA] imgFail [] "inspect down" rfl
        (fun c hc hcp => by
          simp only [List.mem_singleton] at hc
          subst hc
          exact ⟨rfl, by decide⟩)
        rfl rfl rfl (by decide) rfl
      simpa [imgA, imgFail] using h⟩

/-! The step dispatchers of the package `main` DSL (`from`, `run`, `user`,
`workdir`). Their `Builder` struct declaration and its zero-argument
`commit` method are not among the provided sources; only the fields the
dispatchers use are modelled. -/

/-- The build state of the package `main` step dispatchers: the container
configuration, `id` (assigned from each commit), and `imageID`.
Modelled from the spec: `imageID` is the tracked base-image id — empty
until a base image has been established, non-empty afterwards ("A `run`
step additionally requires a base image to already be established"). -/
structure MBuilder where
  config : ContainerConfig
  id : String
  imageID : String
deriving Repr, DecidableEq

/-- The `user` step: set `config.User` to the argument, yield to the nested
block (`yield` stands for `m.Yield`, which evaluates the block's steps
against the shared build state), then unconditionally clear `config.User`
and reset the tracked image id; a yield error is wrapped and returned. -/
def user (arg : String) (yield : MBuilder → MBuilder × Except String String)
    (b : MBuilder) : MBuilder × Except String String :=
  let b1 := { b with config := { b.config with User := arg } }
  let r := yield b1
  let b2 := { r.1 with config := { r.1.config with User := "" }, id := "" }
  (b2, match r.2 with
       | Except.error e => Except.error ("Could not yield: " ++ e)
       | Except.ok v => Except.ok v)

/-- The `workdir` step: like `user`, but scoping `config.WorkingDir`. -/
def workdir (arg : String) (yield : MBuilder → MBuilder × Except String String)
    (b : MBuilder) : MBuilder × Except String String :=
  let b1 := { b with config := { b.config with WorkingDir := arg } }
  let r := yield b1
  let b2 := { r.1 with config := { r.1.config with WorkingDir := "" }, id := "" }
  (b2, match r.2 with
       | Except.error e => Except.error ("Could not yield: " ++ e)
       | Except.ok v => Except.ok v)

/-- The runtime interactions a `run` step can trigger. -/
inductive MCall where
  | commitCall
  | attach (id : String)
  | start (id : String)
deriving Repr, DecidableEq

/-- Oracle for one `run` step: the outcome of the zero-argument `commit`
(modelled from the spec: that method lives outside the provided sources and
produces a new committed image id or an error), and of `ContainerAttach`
and `ContainerStart`. -/
structure RunEnv where
  commitRes : Except String String
  attachRes : Except String Unit
  startRes : Except String Unit

/-- The `run` step: a usage-error guard when no base image is established,
then a temporary `Cmd` override (restored by a deferred assignment on every
later exit path), a commit, and attach/start of the resulting container.
Returns the build state, the user-facing error message if any, and the
trace of runtime interactions triggered. -/
def run (e : RunEnv) (args : List String) (b : MBuilder) :
    MBuilder × Option String × List MCall :=
  if b.imageID = "" then
    (b, some "`from` must be the first docker command`", [])
  else
    let saved := b.config.Cmd
    let b1 := { b with config := { b.config with Cmd := ["/bin/sh", "-c"] ++ args } }
    match e.commitRes with
    | Except.error err =>
        ({ b1 with config := { b1.config with Cmd := saved } },
          some ("Error creating intermediate container: " ++ err), [MCall.commitCall])
    | Except.ok nid =>
        let b2 := { b1 with id := nid }
        match e.attachRes with
        | Except.error err =>
            ({ b2 with config := { b2.config with Cmd := saved } },
              some ("Error attaching to execution context " ++ nid ++ ": " ++ err),
              [MCall.commitCall, MCall.attach nid])
        | Except.ok _ =>
            match e.startRes with
            | Except.error err =>
                ({ b2 with config := { b2.config with Cmd := saved } },
                  some ("Error attaching to execution context " ++ nid ++ ": " ++ err),
                  [MCall.commitCall, MCall.attach nid, MCall.start nid])
            | Except.ok _ =>
                ({ b2 with config := { b2.config with Cmd := saved } },
                  none, [MCall.commitCall, MCall.attach nid, MCall.start nid])

/-- A sample package-`main` build state whose `config.User` is `"alice"`,
used to exhibit that the `user` step does not restore the prior value. -/
def mbAlice : MBuilder := ⟨{ cfgSample with User := "alice" }, "id0", "img0"⟩

/-- C8 counterexample: with `config.User = "alice"` at entry, a `user "bob"`
step whose nested block contains zero steps leaves `config.User = ""` — the
scoped field is not restored to its prior value, refuting the claim as
stated. -/
theorem user_restores_prior_counterexample :
    mbAlice.config.User = "alice" ∧
    (user "bob" (fun bl => (bl, Except.ok "")) mbAlice).1.config.User ≠ "alice" := by
  constructor
  · rfl
  · intro h
    simp [user, mbAlice, cfgSample] at h

/-- C8 (amended): after a scoped step (`user` or `workdir`) finishes
evaluating its nested block — even a block of zero steps, and regardless of
the block's outcome — the scoped field is cleared to empty/unset (not
restored to the prior value) and the tracked image id is reset; the nested
block always observes the field set by the enclosing scope. -/
theorem scoped_steps_clear_and_reset (argU argW : String)
    (yieldU yieldW : MBuilder → MBuilder × Except String String) (b : MBuilder) :
    ((user argU yieldU b).1.config.User = "" ∧ (user argU yieldU b).1.id = "") ∧
    ((workdir argW yieldW b).1.config.WorkingDir = "" ∧ (workdir argW yieldW b).1.id = "") ∧
    (∀ b0 : MBuilder,
      (user argU (fun bl => (bl, Except.ok bl.config.User)) b0).2 = Except.ok argU) ∧
    (∀ b0 : MBuilder,
      (workdir argW (fun bl => (bl, Except.ok bl.config.WorkingDir)) b0).2 =
        Except.ok argW) :=
  ⟨⟨rfl, rfl⟩, ⟨rfl, rfl⟩, fun _ => rfl, fun _ => rfl⟩

/-- C9: a `run` step invoked while no base image has been established fails
immediately with the usage-error message, triggers no runtime calls, and
leaves the build state untouched — for every oracle outcome. -/
theorem run_requires_from (e : RunEnv) (args : List String) (b : MBuilder)
    (h : b.imageID = "") :
    run e args b = (b, some "`from` must be the first docker command`", []) := by
  simp [run, h]

theorem run_requires_from_witness :
    (⟨cfgSample, "", ""⟩ : MBuilder).imageID = "" ∧
    run ⟨Except.ok "img", Except.ok (), Except.ok ()⟩ ["ls"] ⟨cfgSample, "", ""⟩ =
      (⟨cfgSample, "", ""⟩, some "`from` must be the first docker command`", []) :=
  ⟨rfl, run_requires_from ⟨Except.ok "img", Except.ok (), Except.ok ()⟩ ["ls"]
    ⟨cfgSample, "", ""⟩ rfl⟩

/-! Archive packager (`tarPath`). The host filesystem subtree being packaged
is modelled as a tree of named nodes; `readable` is false on a path whose
`lstat`/`Walk` callback or `os.Open` would fail. `filepath.Walk` visits the
walked root first and then descends; children are listed here in the
(lexically sorted) order Go's `Walk` produces. `filepath.Join` on the clean
relative paths occurring here is string concatenation with a separator,
with `"."` as the neutral element. -/

/-- A host filesystem node: a regular file with byte content, or a directory
with an ordered list of children. -/
inductive FSNode where
  | file (name : String) (content : List Nat) (readable : Bool)
  | dir (name : String) (children : List FSNode) (readable : Bool)
deriving Repr

/-- The name of a filesystem node. -/
def FSNode.name : FSNode → String
  | .file n _ _ => n
  | .dir n _ _ => n

/-- The tar type flag distinction the receiving side relies on. -/
inductive TarType where
  | reg
  | dir
deriving Repr, DecidableEq

/-- One archive entry: remapped name, type flag, and (for regular files) the
streamed byte content. -/
structure TarEntry where
  name : String
  typeflag : TarType
  content : List Nat
deriving Repr, DecidableEq

/-- `filepath.Join` restricted to the clean relative components used here. -/
def joinPath (a b : String) : String :=
  if b = "." then a else if a = "." then b else a ++ "/" ++ b

mutual

/-- The `filepath.Walk` callback of `tarPath` applied to one node whose walk
path is `path`: emit a header entry named `filepath.Join(target, path)` with
the node's type flag, stream the content for regular files, and abort with
an error on any unreadable path. -/
def walkNode (target path : String) : FSNode → Except String (List TarEntry)
  | FSNode.file _ content readable =>
      if readable then Except.ok [⟨joinPath target path, TarType.reg, content⟩]
      else Except.error path
  | FSNode.dir _ children readable =>
      if readable then
        match walkKids target path children with
        | Except.error e => Except.error e
        | Except.ok rest => Except.ok (⟨joinPath target path, TarType.dir, []⟩ :: rest)
      else Except.error path

/-- Walk the children of a directory whose walk path is `path`, in order,
aborting on the first error. -/
def walkKids (target path : String) : List FSNode → Except String (List TarEntry)
  | [] => Except.ok []
  | c :: cs =>
      match walkNode target (joinPath path c.name) c with
      | Except.error e => Except.error e
      | Except.ok es =>
          match walkKids target path cs with
          | Except.error e => Except.error e
          | Except.ok es2 => Except.ok (es ++ es2)

end

/-- `tarPath rel target`: package the host path `rel` (whose filesystem
subtree is `fs`) for container path `target`. A directory is walked from
`rel` with every entry renamed under `target`; a single file produces
exactly one entry named `target`. Any unreadable path aborts the whole
operation. -/
def tarPath (fs : FSNode) (rel target : String) : Except String (List TarEntry) :=
  match fs with
  | FSNode.file _ content readable =>
      if readable then Except.ok [⟨target, TarType.reg, content⟩]
      else Except.error rel
  | FSNode.dir _ _ _ => walkNode target rel fs

mutual

/-- Every path in the subtree is readable. -/
def allReadable : FSNode → Bool
  | FSNode.file _ _ r => r
  | FSNode.dir _ cs r => r && allReadableList cs

/-- Every path in a list of subtrees is readable. -/
def allReadableList : List FSNode → Bool
  | [] => true
  | c :: cs => allReadable c && allReadableList cs

end

theorem walk_readable_aux (n : Nat) :
    (∀ fs : FSNode, sizeOf fs ≤ n → ∀ target path,
      (allReadable fs = false → ∃ e, walkNode target path fs = Except.error e) ∧
      (allReadable fs = true → ∃ es, walkNode target path fs = Except.ok es)) ∧
    (∀ l : List FSNode, sizeOf l ≤ n → ∀ target path,
      (allReadableList l = false → ∃ e, walkKids target path l = Except.error e) ∧
      (allReadableList l = true → ∃ es, walkKids target path l = Except.ok es)) := by
  induction n with
  | zero =>
      constructor
      · intro fs hfs
        cases fs <;> simp at hfs
      · intro l hl
        cases l <;> simp at hl
  | succ n ih =>
      constructor
      · intro fs hfs target path
        cases fs with
        | file nm content r =>
            cases r
            · exact ⟨fun _ => ⟨path, rfl⟩, fun h => by simp [allReadable] at h⟩
            · exact ⟨fun h => by simp [allReadable] at h, fun _ => ⟨_, rfl⟩⟩
        | dir nm cs r =>
            have hcs : sizeOf cs ≤ n := by simp at hfs; omega
            cases r
            · exact ⟨fun _ => ⟨path, rfl⟩, fun h => by simp [allReadable] at h⟩
            · constructor
              · intro h
                have h' : allReadableList cs = false := by
                  simpa [allReadable] using h
                obtain ⟨e, he⟩ := ((ih.2) cs hcs target path).1 h'
                exact ⟨e, by simp [walkNode, he]⟩
              · intro h
                have h' : allReadableList cs = true := by
                  simpa [allReadable] using h
                obtain ⟨es, he⟩ := ((ih.2) cs hcs target path).2 h'
                exact ⟨⟨joinPath target path, TarType.dir, []⟩ :: es,
                  by simp [walkNode, he]⟩
      · intro l hl target path
        cases l with
        | nil =>
            exact ⟨fun h => by simp [allReadableList] at h, fun _ => ⟨[], rfl⟩⟩
        | cons c cs =>
            have hc : sizeOf c ≤ n := by simp at hl; omega
            have hcs : sizeOf cs ≤ n := by simp at hl; omega
            constructor
            · intro h
              rcases hac : allReadable c with _ | _
              · obtain ⟨e, he⟩ := ((ih.1) c hc target (joinPath path c.name)).1 hac
                exact ⟨e, by simp [walkKids, he]⟩
              · have h' : allReadableList cs = false := by
                  simpa [allReadableList, hac] using h
                obtain ⟨es, he⟩ := ((ih.1) c hc target (joinPath path c.name)).2 hac
                obtain ⟨e, he2⟩ := ((ih.2) cs hcs target path).1 h'
                exact ⟨e, by simp [walkKids, he, he2]⟩
            · intro h
              have hac : allReadable c = true := by
                have := h
                simp [allReadableList] at this
                exact this.1
              have hacs : allReadableList cs = true := by
                have := h
                simp [allReadableList] at this
                exact this.2
              obtain ⟨es, he⟩ := ((ih.1) c hc target (joinPath path c.name)).2 hac
              obtain ⟨es2, he2⟩ := ((ih.2) cs hcs target path).2 hacs
              exact ⟨es ++ es2, by simp [walkKids, he, he2]⟩

/-- C7: packaging the directory `.` containing `a/x.txt` and `a/b/y.txt` for
container path `/dest` yields exactly the entries `/dest`, `/dest/a`,
`/dest/a/b` (directory flag) and `/dest/a/x.txt`, `/dest/a/b/y.txt`
(regular-file flag, byte-exact content); packaging a single file yields
exactly one entry named with the target path; any unreadable path anywhere
in the subtree aborts the whole operation with an error. -/
theorem tarPath_spec :
    (∀ xc yc : List Nat,
      tarPath (FSNode.dir "." [FSNode.dir "a"
          [FSNode.dir "b" [FSNode.file "y.txt" yc true] true,
            FSNode.file "x.txt" xc true] true] true) "." "/dest" =
        Except.ok [⟨"/dest", TarType.dir, []⟩, ⟨"/dest/a", TarType.dir, []⟩,
          ⟨"/dest/a/b", TarType.dir, []⟩, ⟨"/dest/a/b/y.txt", TarType.reg, yc⟩,
          ⟨"/dest/a/x.txt", TarType.reg, xc⟩]) ∧
    (∀ nm rel target : String, ∀ content : List Nat,
      tarPath (FSNode.file nm content true) rel target =
        Except.ok [⟨target, TarType.reg, content⟩]) ∧
    (∀ (fs : FSNode) (rel target : String), allReadable fs = false →
      ∃ e, tarPath fs rel target = Except.error e) := by
  refine ⟨?_, ?_, ?_⟩
  · intro xc yc
    rfl
  · intro nm rel target content
    rfl
  · intro fs rel target h
    cases fs with
    | file nm content r =>
        cases r
        · exact ⟨rel, rfl⟩
        · simp [allReadable] at h
    | dir nm cs r =>
        exact ((walk_readable_aux (sizeOf (FSNode.dir nm cs r))).1 _ le_rfl target rel).1 h

theorem tarPath_spec_witness :
    (allReadable (FSNode.dir "d" [FSNode.file "secret" [1, 2] false] true) = false ∧
      ∃ e, tarPath (FSNode.dir "d" [FSNode.file "secret" [1, 2] false] true) "d" "/dest" =
        Except.error e) ∧
    tarPath (FSNode.file "f" [7, 8] true) "f" "/data/f" =
      Except.ok [⟨"/data/f", TarType.reg, [7, 8]⟩] :=
  ⟨⟨rfl, tarPath_spec.2.2 (FSNode.dir "d" [FSNode.file "secret" [1, 2] false] true)
      "d" "/dest" rfl⟩,
    tarPath_spec.2.1 "f" "f" "/data/f" [7, 8]⟩

/-! Content hasher (`sumFile`). The Go code hashes the file's byte stream
with `sha512.New512_256` and hex-encodes the digest. SHA-512/256
(FIPS 180-4) is given here executably over `List Nat` bytes, with 64-bit
words as `Nat` reduced mod `2^64`; the round constants and initial hash
values are the FIPS 180-4 ones, written in decimal. -/

/-- `2^64`, the 64-bit word modulus. -/
def w64 : Nat := 18446744073709551616

/-- Right rotation of a 64-bit word. -/
def rotr64 (x n : Nat) : Nat := ((x >>> n) ||| (x <<< (64 - n))) % w64

/-- Bitwise complement of a 64-bit word. -/
def not64 (x : Nat) : Nat := x ^^^ (w64 - 1)

/-- SHA-512 `Ch`. -/
def ch64 (x y z : Nat) : Nat := (x &&& y) ^^^ (not64 x &&& z)

/-- SHA-512 `Maj`. -/
def maj64 (x y z : Nat) : Nat := (x &&& y) ^^^ (x &&& z) ^^^ (y &&& z)

/-- SHA-512 `Σ0`. -/
def bigSigma0 (x : Nat) : Nat := rotr64 x 28 ^^^ rotr64 x 34 ^^^ rotr64 x 39

/-- SHA-512 `Σ1`. -/
def bigSigma1 (x : Nat) : Nat := rotr64 x 14 ^^^ rotr64 x 18 ^^^ rotr64 x 41

/-- SHA-512 `σ0`. -/
def smallSigma0 (x : Nat) : Nat := rotr64 x 1 ^^^ rotr64 x 8 ^^^ (x >>> 7)

/-- SHA-512 `σ1`. -/
def smallSigma1 (x : Nat) : Nat := rotr64 x 19 ^^^ rotr64 x 61 ^^^ (x >>> 6)

/-- The 80 SHA-512 round constants of FIPS 180-4 §4.2.3, in decimal. -/
def K512 : List Nat :=
  [4794697086780616226, 8158064640168781261, 13096744586834688815,
    16840607885511220156, 4131703408338449720, 6480981068601479193,
    10538285296894168987, 12329834152419229976, 15566598209576043074,
    1334009975649890238, 2608012711638119052, 6128411473006802146,
    8268148722764581231, 9286055187155687089, 11230858885718282805,
    13951009754708518548, 16472876342353939154, 17275323862435702243,
    1135362057144423861, 2597628984639134821, 3308224258029322869,
    5365058923640841347, 6679025012923562964, 8573033837759648693,
    10970295158949994411, 12119686244451234320, 12683024718118986047,
    13788192230050041572, 14330467153632333762, 15395433587784984357,
    489312712824947311, 1452737877330783856, 2861767655752347644,
    3322285676063803686, 5560940570517711597, 5996557281743188959,
    7280758554555802590, 8532644243296465576, 9350256976987008742,
    10552545826968843579, 11727347734174303076, 12113106623233404929,
    14000437183269869457, 14369950271660146224, 15101387698204529176,
    15463397548674623760, 17586052441742319658, 1182934255886127544,
    1847814050463011016, 2177327727835720531, 2830643537854262169,
    3796741975233480872, 4115178125766777443, 5681478168544905931,
    6601373596472566643, 7507060721942968483, 8399075790359081724,
    8693463985226723168, 9568029438360202098, 10144078919501101548,
    10430055236837252648, 11840083180663258601, 13761210420658862357,
    14299343276471374635, 14566680578165727644, 15097957966210449927,
    16922976911328602910, 17689382322260857208, 500013540394364858,
    748580250866718886, 1242879168328830382, 1977374033974150939,
    2944078676154940804, 3659926193048069267, 4368137639120453308,
    4836135668995329356, 5532061633213252278, 6448918945643986474,
    6902733635092675308, 7801388544844847127]

/-- The eight SHA-512/256 initial hash values of FIPS 180-4 §5.3.6.2,
in decimal. -/
def IV512_256 : List Nat :=
  [2463787394917988140, 11481187982095705282, 2563595384472711505,
    10824532655140301501, 10819967247969091555, 13717434660681038226,
    3098927326965381290, 1060366662362279074]

/-- Big-endian serialization of `n` into exactly `k` bytes. -/
def natToBytesBE (k : Nat) (n : Nat) : List Nat :=
  match k with
  | 0 => []
  | k + 1 => natToBytesBE k (n / 256) ++ [n % 256]

/-- Big-endian word value of a byte list. -/
def bytesToWordBE (l : List Nat) : Nat := l.foldl (fun acc b => acc * 256 + b) 0

/-- Split a list into chunks of `k` elements (fuel-based, fuel = length). -/
def chunkAux (k : Nat) : Nat → List Nat → List (List Nat)
  | 0, _ => []
  | _, [] => []
  | fuel + 1, l => l.take k :: chunkAux k fuel (l.drop k)

/-- Split a list into chunks of `k` elements. -/
def chunk (k : Nat) (l : List Nat) : List (List Nat) := chunkAux k l.length l

/-- SHA-512 padding: append `0x80`, zero bytes up to 112 mod 128, then the
128-bit big-endian bit length. -/
def pad512 (msg : List Nat) : List Nat :=
  let len := msg.length
  let zeros := (128 + 112 - (len + 1) % 128) % 128
  msg ++ [128] ++ List.replicate zeros 0 ++ natToBytesBE 16 (8 * len)

/-- Extend a 16-word message schedule by `n` further words. -/
def extendSchedule : List Nat → Nat → List Nat
  | ws, 0 => ws
  | ws, n + 1 =>
      let t := ws.length
      let w := (smallSigma1 (ws.getD (t - 2) 0) + ws.getD (t - 7) 0 +
          smallSigma0 (ws.getD (t - 15) 0) + ws.getD (t - 16) 0) % w64
      extendSchedule (ws ++ [w]) n

/-- The eight working variables of the SHA-512 compression loop. -/
structure Sha512State where
  va : Nat
  vb : Nat
  vc : Nat
  vd : Nat
  ve : Nat
  vf : Nat
  vg : Nat
  vh : Nat

/-- One round of the SHA-512 compression loop with round constant `kw.1` and
schedule word `kw.2`. -/
def shaRound (st : Sha512State) (kw : Nat × Nat) : Sha512State :=
  let t1 := (st.vh + bigSigma1 st.ve + ch64 st.ve st.vf st.vg + kw.1 + kw.2) % w64
  let t2 := (bigSigma0 st.va + maj64 st.va st.vb st.vc) % w64
  ⟨(t1 + t2) % w64, st.va, st.vb, st.vc, (st.vd + t1) % w64, st.ve, st.vf, st.vg⟩

/-- Process one 128-byte block, updating the eight-word state. -/
def compressBlock (st : List Nat) (block : List Nat) : List Nat :=
  let ws := extendSchedule ((chunk 8 block).map bytesToWordBE) 64
  let fin := (K512.zip ws).foldl shaRound
    ⟨st.getD 0 0, st.getD 1 0, st.getD 2 0, st.getD 3 0,
      st.getD 4 0, st.getD 5 0, st.getD 6 0, st.getD 7 0⟩
  [(st.getD 0 0 + fin.va) % w64, (st.getD 1 0 + fin.vb) % w64,
    (st.getD 2 0 + fin.vc) % w64, (st.getD 3 0 + fin.vd) % w64,
    (st.getD 4 0 + fin.ve) % w64, (st.getD 5 0 + fin.vf) % w64,
    (st.getD 6 0 + fin.vg) % w64, (st.getD 7 0 + fin.vh) % w64]

/-- SHA-512/256 of a byte list: SHA-512 from the SHA-512/256 initial values,
truncated to the first 32 digest bytes. -/
def sha512_256 (msg : List Nat) : List Nat :=
  let finalState := (chunk 128 (pad512 msg)).foldl compressBlock IV512_256
  ((finalState.take 4).map (natToBytesBE 8)).flatten

/-- The lowercase hex digit for `n < 16`, as in Go's `hex.EncodeToString`. -/
def hexDigit (n : Nat) : Char :=
  if n < 10 then Char.ofNat (48 + n) else Char.ofNat (87 + n)

/-- The two lowercase hex digits of one byte. -/
def hexByte (b : Nat) : List Char := [hexDigit (b / 16), hexDigit (b % 16)]

/-- Go's `hex.EncodeToString` over a byte list. -/
def hexEncodeBytes (l : List Nat) : String := String.mk (l.map hexByte).flatten

/-- A host file as `sumFile` can observe it: the name it was opened under,
its permissions and modification time, and its byte content. Only the
content flows into the hash. -/
structure HostFile where
  path : String
  perm : Nat
  modTime : Nat
  content : List Nat

/-- `sumFile`: hash the opened file's byte stream with SHA-512/256 and build
the cache key `"box:copy <hex-digest>"`. -/
def sumFile (f : HostFile) : String :=
  "box:copy " ++ hexEncodeBytes (sha512_256 f.content)

theorem natToBytesBE_length (k n : Nat) : (natToBytesBE k n).length = k := by
  induction k generalizing n with
  | zero => rfl
  | succ k ih => simp [natToBytesBE, ih]

theorem natToBytesBE_lt (k n : Nat) : ∀ b ∈ natToBytesBE k n, b < 256 := by
  induction k generalizing n with
  | zero => simp [natToBytesBE]
  | succ k ih =>
      intro b hb
      simp only [natToBytesBE, List.mem_append, List.mem_singleton] at hb
      rcases hb with hb | hb
      · exact ih _ b hb
      · subst hb
        exact Nat.mod_lt _ (by omega)

theorem compressBlock_length (st bl : List Nat) : (compressBlock st bl).length = 8 := rfl

theorem foldl_compress_length (blocks : List (List Nat)) (st : List Nat)
    (h : st.length = 8) : (blocks.foldl compressBlock st).length = 8 := by
  induction blocks generalizing st with
  | nil => simpa using h
  | cons bl rest ih => exact ih _ (compressBlock_length st bl)

theorem sha512_256_length (msg : List Nat) : (sha512_256 msg).length = 32 := by
  unfold sha512_256
  have hfs : ((chunk 128 (pad512 msg)).foldl compressBlock IV512_256).length = 8 :=
    foldl_compress_length _ _ rfl
  generalize ((chunk 128 (pad512 msg)).foldl compressBlock IV512_256) = fs at hfs
  match fs, hfs with
  | [w0, w1, w2, w3, w4, w5, w6, w7], _ =>
      simp [List.take, natToBytesBE_length]

theorem sha512_256_bytes_lt (msg : List Nat) : ∀ b ∈ sha512_256 msg, b < 256 := by
  intro b hb
  unfold sha512_256 at hb
  simp only [List.mem_flatten, List.mem_map] at hb
  obtain ⟨l, ⟨w, _, hw⟩, hbl⟩ := hb
  subst hw
  exact natToBytesBE_lt 8 w b hbl

/-- The sixteen lowercase hex digits. -/
def hexChars : List Char := "0123456789abcdef".data

theorem hexDigit_mem (n : Nat) (h : n < 16) : hexDigit n ∈ hexChars := by
  interval_cases n <;> decide

theorem hexEncodeBytes_length (l : List Nat) :
    (hexEncodeBytes l).length = 2 * l.length := by
  induction l with
  | nil => rfl
  | cons b rest ih =>
      show ((b :: rest).map hexByte).flatten.length = 2 * (b :: rest).length
      have ih' : (rest.map hexByte).flatten.length = 2 * rest.length := ih
      simp only [List.map_cons, List.flatten_cons, List.length_append, ih', hexByte,
        List.length_cons, List.length_nil]
      omega

theorem hexEncodeBytes_chars (l : List Nat) (h : ∀ b ∈ l, b < 256) :
    ∀ c ∈ (hexEncodeBytes l).data, c ∈ hexChars := by
  intro c hc
  have hc' : c ∈ (l.map hexByte).flatten := hc
  simp only [List.mem_flatten, List.mem_map] at hc'
  obtain ⟨cs, ⟨b, hb, hcs⟩, hccs⟩ := hc'
  subst hcs
  have hb256 := h b hb
  simp only [hexByte, List.mem_cons, List.mem_singleton] at hccs
  rcases hccs with hce | hce | hce
  · subst hce
    exact hexDigit_mem _ (by omega)
  · subst hce
    exact hexDigit_mem _ (Nat.mod_lt _ (by omega))
  · cases hce

set_option maxRecDepth 100000 in
/-- SHA-512/256 of the empty byte string agrees with the FIPS 180-4 test
vector, validating the executable hash given here. -/
theorem sha512_256_empty_vector :
    hexEncodeBytes (sha512_256 []) =
      "c672b8d1ef56ed28ab87c3622c5114069bdd3ad7b8f9737498d0c01ecef0967a" := by
  rfl

set_option maxRecDepth 100000 in
/-- SHA-512/256 of `"abc"` agrees with the FIPS 180-4 test vector. -/
theorem sha512_256_abc_vector :
    hexEncodeBytes (sha512_256 [97, 98, 99]) =
      "53048e2681941ef99b2e29b76b4c7dabe4c2d0c634fc6d46e0e2f13107e7af23" := by
  rfl

/-- C6: `sumFile` yields a cache key that is a deterministic function of the
file's byte content alone — identical content gives an identical key no
matter the path, permissions or timestamps — and the key has the form
`"box:copy <hex-digest>"` where the digest is the 64-character lowercase
hex encoding of the SHA-512/256 hash of the bytes. -/
theorem sumFile_key_spec (f g : HostFile) (h : f.content = g.content) :
    sumFile f = sumFile g ∧
    ∃ digest : String, sumFile f = "box:copy " ++ digest ∧
      digest = hexEncodeBytes (sha512_256 f.content) ∧
      digest.length = 64 ∧ ∀ c ∈ digest.data, c ∈ hexChars := by
  refine ⟨by rw [sumFile, sumFile, h], hexEncodeBytes (sha512_256 f.content),
    rfl, rfl, ?_, ?_⟩
  · show ((sha512_256 f.content).map hexByte).flatten.length = 64
    have h1 := hexEncodeBytes_length (sha512_256 f.content)
    have h2 := sha512_256_length f.content
    rw [h2] at h1
    exact h1
  · exact hexEncodeBytes_chars _ (sha512_256_bytes_lt f.content)

theorem sumFile_key_spec_witness :
    (⟨"/src/data.bin", 420, 1700000000, [104, 105]⟩ : HostFile).content =
      (⟨"/other/copy.bin", 384, 1800000000, [104, 105]⟩ : HostFile).content ∧
    (sumFile ⟨"/src/data.bin", 420, 1700000000, [104, 105]⟩ =
        sumFile ⟨"/other/copy.bin", 384, 1800000000, [104, 105]⟩ ∧
      ∃ digest : String,
        sumFile ⟨"/src/data.bin", 420, 1700000000, [104, 105]⟩ =
          "box:copy " ++ digest ∧
        digest = hexEncodeBytes (sha512_256
          (⟨"/src/data.bin", 420, 1700000000, [104, 105]⟩ : HostFile).content) ∧
        digest.length = 64 ∧ ∀ c ∈ digest.data, c ∈ hexChars) :=
  ⟨rfl, sumFile_key_spec ⟨"/src/data.bin", 420, 1700000000, [104, 105]⟩
    ⟨"/other/copy.bin", 384, 1800000000, [104, 105]⟩ rfl⟩

end Box
